import Mathlib

/-
Verification of the image-download / zip-archive subsystem of dmbk-world
(packages/api/src/features/fal.ts).

JavaScript strings are embedded as `List Char`; the JS string primitives the
source uses (split, startsWith, endsWith, toLowerCase on ASCII input,
Number on digit strings) are given executable definitions below so that the
model both evaluates by `decide` and supports induction.

The SSRF guard (isPrivateIP, validateImageUrl, ALLOWED_IMAGE_DOMAINS) is
translated from packages/api/src/features/fal.ts.  The resource-limited
download pipeline (MAX_IMAGE_SIZE, DOWNLOAD_TIMEOUT_MS, streaming reads,
downloadWithConcurrency, archiver-based createImageZip) is exercised by
packages/api/src/features/__tests__/image-download-limits.test.ts and
documented in the resource-limits design document, but its implementation
file is not part of the source tree given here; those definitions are
modelled from the spec (and the code excerpts in the design document) and
are marked accordingly.
-/

/-- Bridge from Lean string literals to the `List Char` embedding of JS strings. -/
def jstr (s : String) : List Char := s.data

/-- ASCII decimal digit test ('0'-'9'), as used by Node's IPv4 grammar. -/
def isDigitCl (c : Char) : Bool := decide ('0' ≤ c ∧ c ≤ '9')

/-- ASCII hex digit test ([0-9a-fA-F]), as used by Node's IPv6 segment grammar. -/
def isHexDigitCl (c : Char) : Bool :=
  isDigitCl c || decide ('a' ≤ c ∧ c ≤ 'f') || decide ('A' ≤ c ∧ c ≤ 'F')

/-- ASCII letter test ([a-zA-Z]). -/
def isAsciiAlphaCl (c : Char) : Bool :=
  decide ('a' ≤ c ∧ c ≤ 'z') || decide ('A' ≤ c ∧ c ≤ 'Z')

/-- JS `String.prototype.toLowerCase` restricted to ASCII, applied per
character.  All strings this code lowercases (hostnames, IP address text)
are ASCII. -/
def jsCharToLower (c : Char) : Char :=
  if decide ('A' ≤ c ∧ c ≤ 'Z') then Char.ofNat (c.toNat + 32) else c

/-- JS `str.split(sep)` for a one-character separator.  Like in JS,
`"".split(".")` is `[""]` and separators at the ends produce empty pieces. -/
def splitOnChar (sep : Char) : List Char → List (List Char)
  | [] => [[]]
  | c :: rest =>
    let r := splitOnChar sep rest
    if c = sep then [] :: r
    else
      match r with
      | [] => [[c]]
      | h :: t => (c :: h) :: t

/-- Accumulator loop for `digitsToNat`. -/
def digitsToNatAux : List Char → Nat → Option Nat
  | [], acc => some acc
  | c :: r, acc => if isDigitCl c then digitsToNatAux r (acc * 10 + (c.toNat - 48)) else none

/-- JS `Number(s)` restricted to nonempty all-digit strings (the only shape it
is applied to here, since Node's IPv4 grammar is checked first): `none` on the
empty string or any non-digit character. -/
def digitsToNat : List Char → Option Nat
  | [] => none
  | c :: r => digitsToNatAux (c :: r) 0

/-- JS `str.startsWith(p)`: `hasPrefixCl p s` holds when `p` is a prefix of `s`. -/
def hasPrefixCl : List Char → List Char → Bool
  | [], _ => true
  | _ :: _, [] => false
  | p :: ps, c :: cs => decide (p = c) && hasPrefixCl ps cs

/-- JS `str.endsWith(p)`: `hasSuffixCl p s` holds when `p` is a suffix of `s`. -/
def hasSuffixCl (p s : List Char) : Bool := hasPrefixCl p.reverse s.reverse

/-- One segment of Node's `net.isIPv4` grammar: a decimal number `0..255`
with no leading zero (regex `25[0-5]|2[0-4][0-9]|1[0-9][0-9]|[1-9][0-9]|[0-9]`). -/
def isV4Seg (p : List Char) : Bool :=
  match digitsToNat p with
  | none => false
  | some n => decide (n ≤ 255) && (decide (p.length = 1) || decide (p.headD ' ' ≠ '0'))

/-- Node `net.isIPv4`: exactly four dot-separated valid segments. -/
def isIPv4 (s : List Char) : Bool :=
  let parts := splitOnChar '.' s
  decide (parts.length = 4) && parts.all isV4Seg

/-- One segment of Node's IPv6 grammar: one to four hex digits. -/
def isV6Seg (p : List Char) : Bool :=
  decide (1 ≤ p.length) && decide (p.length ≤ 4) && p.all isHexDigitCl

/-- A zone-id character of Node's IPv6 grammar (`%[0-9a-zA-Z-.:]{1,}`). -/
def isZoneChar (c : Char) : Bool :=
  isDigitCl c || isAsciiAlphaCl c || decide (c = '-') || decide (c = '.') || decide (c = ':')

/-- Whether the text contains two adjacent colons. -/
def containsDoubleColon : List Char → Bool
  | [] => false
  | [_] => false
  | c :: c' :: rest =>
    (decide (c = ':') && decide (c' = ':')) || containsDoubleColon (c' :: rest)

/-- Split at the leftmost occurrence of "::", returning the text before and
after it; `none` when there is no "::". -/
def splitFirstDoubleColon : List Char → Option (List Char × List Char)
  | [] => none
  | [_] => none
  | c :: c' :: rest =>
    if c = ':' ∧ c' = ':' then some ([], rest)
    else
      match splitFirstDoubleColon (c' :: rest) with
      | none => none
      | some (l, r) => some (c :: l, r)

/-- Group count of the colon-separated pieces to the right of a "::": all
pieces are hex segments, or all but the last are and the last is a dotted
IPv4 quad (counting as two 16-bit groups); `none` when ill-formed. -/
def v6GroupsRight (ps : List (List Char)) : Option Nat :=
  if ps = [] then some 0
  else if ps.all isV6Seg then some ps.length
  else if ps.dropLast.all isV6Seg && isIPv4 (ps.getLastD []) then some (ps.length + 1)
  else none

/-- Node's IPv6 address grammar (without zone id): either eight hex segments
(or six plus a trailing dotted quad) and no "::", or a single "::" with
well-formed segments on both sides totalling at most seven groups. -/
def isIPv6Addr (a : List Char) : Bool :=
  match splitFirstDoubleColon a with
  | none =>
    let ps := splitOnChar ':' a
    (decide (ps.length = 8) && ps.all isV6Seg) ||
      (decide (ps.length = 7) && ps.dropLast.all isV6Seg && isIPv4 (ps.getLastD []))
  | some (l, r) =>
    if containsDoubleColon r then false
    else
      let lp := if l = [] then [] else splitOnChar ':' l
      let rp := if r = [] then [] else splitOnChar ':' r
      lp.all isV6Seg &&
        match v6GroupsRight rp with
        | none => false
        | some g => decide (lp.length + g ≤ 7)

/-- Node `net.isIPv6`: the address grammar with an optional `%zone` suffix. -/
def isIPv6 (s : List Char) : Bool :=
  match splitOnChar '%' s with
  | [a] => isIPv6Addr a
  | [a, z] => decide (z ≠ []) && z.all isZoneChar && isIPv6Addr a
  | _ => false

/-- The function `isPrivateIP` from packages/api/src/features/fal.ts: IPv4 addresses are
classified by their first two numeric octets against the reserved ranges;
IPv6 addresses are classified by textual comparison of the lowercased input
against a fixed set of spellings and prefixes; anything that is neither
IPv4 nor IPv6 is treated as private (fail closed). -/
def isPrivateIP (ip : List Char) : Bool :=
  if isIPv4 ip then
    let parts := (splitOnChar '.' ip).map (fun p => (digitsToNat p).getD 0)
    let p0 := parts.getD 0 0
    let p1 := parts.getD 1 0
    decide (p0 = 10) || decide (p0 = 127) ||
      (decide (p0 = 172) && decide (16 ≤ p1) && decide (p1 ≤ 31)) ||
      (decide (p0 = 192) && decide (p1 = 168)) ||
      (decide (p0 = 169) && decide (p1 = 254)) ||
      decide (p0 = 0) ||
      (decide (p0 = 100) && decide (64 ≤ p1) && decide (p1 ≤ 127)) ||
      (decide (p0 = 198) && decide (18 ≤ p1) && decide (p1 ≤ 19))
  else if isIPv6 ip then
    let normalized := ip.map jsCharToLower
    decide (normalized = jstr "::1") ||
      hasPrefixCl (jstr "fe80:") normalized ||
      hasPrefixCl (jstr "fc") normalized ||
      hasPrefixCl (jstr "fd") normalized ||
      decide (normalized = jstr "::") ||
      hasPrefixCl (jstr "::ffff:127.") normalized ||
      hasPrefixCl (jstr "::ffff:10.") normalized ||
      hasPrefixCl (jstr "::ffff:192.168.") normalized ||
      hasPrefixCl (jstr "::ffff:169.254.") normalized
  else true

/-- The first two numeric octets and full 32-bit value of a dotted quad, read
the way `isPrivateIP` reads them (`ip.split(".").map(Number)`). -/
def v4OctetsOf (s : List Char) : List Nat :=
  (splitOnChar '.' s).map (fun p => (digitsToNat p).getD 0)

/-- The 32-bit numeric value of a dotted quad. -/
def v4ValueOf (s : List Char) : Nat :=
  (((v4OctetsOf s).getD 0 0 * 256 + (v4OctetsOf s).getD 1 0) * 256 +
      (v4OctetsOf s).getD 2 0) * 256 + (v4OctetsOf s).getD 3 0

/-- The reserved / private IPv4 ranges enumerated by the claim, as numeric
intervals of 32-bit address values: 127/8, 0/8, 169.254/16, 10/8,
172.16/12, 192.168/16, 100.64/10 and 198.18/15. -/
def claimedPrivateV4 (v : Nat) : Prop :=
  (127 * 2 ^ 24 ≤ v ∧ v < 128 * 2 ^ 24) ∨
  (v < 2 ^ 24) ∨
  (169 * 2 ^ 24 + 254 * 2 ^ 16 ≤ v ∧ v < 169 * 2 ^ 24 + 255 * 2 ^ 16) ∨
  (10 * 2 ^ 24 ≤ v ∧ v < 11 * 2 ^ 24) ∨
  (172 * 2 ^ 24 + 16 * 2 ^ 16 ≤ v ∧ v < 172 * 2 ^ 24 + 32 * 2 ^ 16) ∨
  (192 * 2 ^ 24 + 168 * 2 ^ 16 ≤ v ∧ v < 192 * 2 ^ 24 + 169 * 2 ^ 16) ∨
  (100 * 2 ^ 24 + 64 * 2 ^ 16 ≤ v ∧ v < 100 * 2 ^ 24 + 128 * 2 ^ 16) ∨
  (198 * 2 ^ 24 + 18 * 2 ^ 16 ≤ v ∧ v < 198 * 2 ^ 24 + 20 * 2 ^ 16)

instance (v : Nat) : Decidable (claimedPrivateV4 v) := by
  unfold claimedPrivateV4
  infer_instance

deriving instance DecidableEq for Except

/-- Result of the WHATWG `new URL(url)` parse, restricted to the components
`validateImageUrl` and `downloadImage` read. -/
structure URLRec where
  protocol : List Char
  username : List Char
  password : List Char
  hostname : List Char
  pathname : List Char
deriving DecidableEq

/-- The distinct rejection reasons of `validateImageUrl`, one per check. -/
inductive ValidationError where
  | invalidUrl
  | schemeNotAllowed
  | credentialsInUrl
  | domainNotAllowed
  | dnsResolutionFailed
  | privateIpRejected
deriving DecidableEq

/-- The list `ALLOWED_IMAGE_DOMAINS` from packages/api/src/features/fal.ts: one exact
hostname and one dot-prefixed suffix entry. -/
def ALLOWED_IMAGE_DOMAINS : List (List Char) :=
  [jstr "d2w9rnfcy7mm78.cloudfront.net", jstr ".are.na"]

/-- One allowlist entry test from `validateImageUrl`: a dot-prefixed entry
matches the bare domain (entry minus its leading dot) or any hostname ending
with the entry; other entries match by equality. -/
def domainMatches (hostname domain : List Char) : Bool :=
  if hasPrefixCl (jstr ".") domain then
    decide (hostname = domain.drop 1) || hasSuffixCl domain hostname
  else decide (hostname = domain)

/-- The `isAllowed` computation of `validateImageUrl`
(`ALLOWED_IMAGE_DOMAINS.some(...)`). -/
def isAllowedHost (hostname : List Char) : Bool :=
  ALLOWED_IMAGE_DOMAINS.any (domainMatches hostname)

/-- The function `validateImageUrl` from packages/api/src/features/fal.ts.  The WHATWG URL
parser and the DNS resolver are the two external effects the function uses;
they are passed as oracles: `parseURL url = none` models `new URL(url)`
throwing, and `dnsLookup h = none` models `dns.promises.lookup(h)` rejecting
(otherwise it yields the resolved address text).  The checks run in source
order, each short-circuiting with its own error. -/
def validateImageUrl (parseURL : List Char → Option URLRec)
    (dnsLookup : List Char → Option (List Char)) (url : List Char) :
    Except ValidationError Unit :=
  match parseURL url with
  | none => .error .invalidUrl
  | some parsed =>
    if parsed.protocol ≠ jstr "https:" then .error .schemeNotAllowed
    else if parsed.username ≠ [] ∨ parsed.password ≠ [] then .error .credentialsInUrl
    else
      let hostname := parsed.hostname.map jsCharToLower
      if ¬ isAllowedHost hostname then .error .domainNotAllowed
      else
        match dnsLookup hostname with
        | none => .error .dnsResolutionFailed
        | some resolved =>
          if isPrivateIP resolved then .error .privateIpRejected else .ok ()

/-- The wording the claim gives to the allowlist check (check 4), for comparison with
the source's `isAllowedHost`: the case-folded hostname equals an exact
allowlist entry or, for suffix-style entries, ends with the suffix. -/
def claimedHostCheck (hostname : List Char) : Bool :=
  ALLOWED_IMAGE_DOMAINS.any (fun domain =>
    if hasPrefixCl (jstr ".") domain then hasSuffixCl domain hostname
    else decide (hostname = domain))

/-- Modelled from the spec: `MAX_IMAGE_SIZE`, the per-item byte ceiling of the
resource-limited `downloadImage`, whose implementation file is not in the
given source tree (its unit tests and the resource-limits design document
are); 5 MB. -/
def MAX_IMAGE_SIZE : Nat := 5 * 1024 * 1024

/-- Modelled from the spec: `DOWNLOAD_TIMEOUT_MS`, the per-fetch wall-clock
deadline of the resource-limited `downloadImage` (30 seconds), passed to
`AbortSignal.timeout`. -/
def DOWNLOAD_TIMEOUT_MS : Nat := 30000

/-- Modelled from the spec: the concurrency the resource-limited
`createImageZip` passes to `downloadWithConcurrency`. -/
def DOWNLOAD_CONCURRENCY : Nat := 5

/-- The init options of the `fetch` call in the resource-limited
`downloadImage`: redirects rejected, abort signal with a timeout. -/
structure FetchInit where
  redirect : List Char
  timeoutMs : Option Nat
deriving DecidableEq

/-- Modelled from the spec: the resource-limited `downloadImage` issues
`fetch(url, { redirect: "error", signal: AbortSignal.timeout(DOWNLOAD_TIMEOUT_MS) })`. -/
def downloadImageFetchInit : FetchInit :=
  { redirect := jstr "error", timeoutMs := some DOWNLOAD_TIMEOUT_MS }

/-- An HTTP response as the downloader consumes it: status, content-type
header, numeric content-length header (when present), and the body as the
sequence of chunks the reader yields. -/
structure HttpResponse where
  status : Nat
  contentType : Option (List Char)
  contentLength : Option Nat
  bodyChunks : List (List Nat)
deriving DecidableEq

/-- The failure kinds of the resource-limited `downloadImage`.  The size
ceiling failure distinguishes the advertised-header rejection from the
streamed-count rejection, mirroring the two error messages. -/
inductive DownloadError where
  | validationFailed (e : ValidationError)
  | fetchFailed
  | timeout
  | httpError (status : Nat)
  | notAnImage
  | sizeExceededHeader (contentLength : Nat)
  | sizeExceededStreamed (streamed : Nat)
  | tooSmall (bytes : Nat)
deriving DecidableEq

/-- A successfully downloaded image: derived filename and body bytes. -/
structure ImageFile where
  filename : List Char
  data : List Nat
deriving DecidableEq

/-- Placeholder image used as a `getD` default in statements. -/
def dummyImage : ImageFile := { filename := [], data := [] }

/-- Total body length of a chunk sequence. -/
def sumChunkLens (chunks : List (List Nat)) : Nat :=
  (chunks.map List.length).sum

/-- Modelled from the spec: the streaming read loop of the resource-limited
`downloadImage` (`response.body.getReader()`): chunks are consumed in order
while a running byte count is kept; the moment the running count exceeds
`MAX_IMAGE_SIZE` the read is cancelled and the loop fails with the streamed
count, without touching the remaining chunks; otherwise all chunks are
returned. -/
def readStream : List (List Nat) → Nat → Except DownloadError (List (List Nat))
  | [], _ => .ok []
  | chunk :: rest, totalBytes =>
    let total := totalBytes + chunk.length
    if MAX_IMAGE_SIZE < total then .error (.sizeExceededStreamed total)
    else
      match readStream rest total with
      | .error e => .error e
      | .ok cs => .ok (chunk :: cs)

/-- The recognized image filename extensions (regex
`\.(jpg|jpeg|png|gif|webp)$/i`). -/
def imageExts : List (List Char) :=
  [jstr ".jpg", jstr ".jpeg", jstr ".png", jstr ".gif", jstr ".webp"]

/-- Case-insensitive test for a recognized image extension. -/
def hasImageExt (filename : List Char) : Bool :=
  imageExts.any (fun e => hasSuffixCl e (filename.map jsCharToLower))

/-- Decimal rendering of a natural number (recursion on a fuel bound so that
the definition evaluates structurally). -/
def natToCharsAux : Nat → Nat → List Char
  | 0, _ => []
  | fuel + 1, n =>
    if n < 10 then [Char.ofNat (48 + n)]
    else natToCharsAux fuel (n / 10) ++ [Char.ofNat (48 + n % 10)]

/-- Decimal rendering of a natural number, as JS string interpolation does. -/
def natToChars (n : Nat) : List Char := natToCharsAux (n + 1) n

/-- Filename derivation of `downloadImage`: last path segment of the URL, a
timestamped default when that is empty, and a `.jpg` suffix appended when no
recognized image extension is present.  `now` stands for `Date.now()`. -/
def filenameFromUrl (parseURL : List Char → Option URLRec) (now : Nat)
    (url : List Char) : List Char :=
  let urlPath := ((parseURL url).map URLRec.pathname).getD []
  let base := (splitOnChar '/' urlPath).getLastD []
  let filename :=
    if base = [] then jstr "image_" ++ natToChars now ++ jstr ".jpg" else base
  if hasImageExt filename then filename else filename ++ jstr ".jpg"

/-- Modelled from the spec: the resource-limited `downloadImage`, whose
implementation file is absent from the given tree (modelled from the spec and
the design-document code, and checked against its unit tests).  It validates
the URL, fetches under the deadline with redirects rejected (`fetchResp url =
some (elapsed, response)` yields the response together with the wall-clock
time the whole fetch-and-read took; `none` models a network failure or a
blocked redirect), rejects non-2xx statuses, non-image content types, and an
advertised content-length over the ceiling (`Number(null)` is `0`, so a
missing header passes), then streams the body under the running byte count,
rejects bodies under 1024 bytes, and derives the filename. -/
def downloadImage (parseURL : List Char → Option URLRec)
    (dnsLookup : List Char → Option (List Char))
    (fetchResp : List Char → Option (Nat × HttpResponse)) (now : Nat)
    (url : List Char) : Except DownloadError ImageFile :=
  match validateImageUrl parseURL dnsLookup url with
  | .error e => .error (.validationFailed e)
  | .ok _ =>
    match fetchResp url with
    | none => .error .fetchFailed
    | some (elapsed, response) =>
      if DOWNLOAD_TIMEOUT_MS < elapsed then .error .timeout
      else if ¬ (200 ≤ response.status ∧ response.status < 300) then
        .error (.httpError response.status)
      else
        match response.contentType with
        | none => .error .notAnImage
        | some ct =>
          if ¬ hasPrefixCl (jstr "image/") ct then .error .notAnImage
          else if MAX_IMAGE_SIZE < response.contentLength.getD 0 then
            .error (.sizeExceededHeader (response.contentLength.getD 0))
          else
            match readStream response.bodyChunks 0 with
            | .error e => .error e
            | .ok chunks =>
              let buffer := chunks.flatten
              if buffer.length < 1024 then .error (.tooSmall buffer.length)
              else .ok { filename := filenameFromUrl parseURL now url, data := buffer }

/-- The per-worker `try/catch` of `downloadWithConcurrency`: any failure of
`downloadImage` is recorded as `none` at that slot and never escapes. -/
def downloadOrNull (parseURL : List Char → Option URLRec)
    (dnsLookup : List Char → Option (List Char))
    (fetchResp : List Char → Option (Nat × HttpResponse)) (now : Nat)
    (url : List Char) : Option ImageFile :=
  (downloadImage parseURL dnsLookup fetchResp now url).toOption

/-- A worker of the `downloadWithConcurrency` pool: waiting to claim an
index, downloading the claimed index, or exited after seeing the cursor
exhausted. -/
inductive WorkerStatus where
  | idle
  | busy (index : Nat)
  | exited
deriving DecidableEq

/-- The shared state of the `downloadWithConcurrency` pool: the shared
`nextIndex` cursor, the workers, and the `results` array (initially all
`null`). -/
structure PoolState where
  nextIndex : Nat
  workers : List WorkerStatus
  results : List (Option ImageFile)
deriving DecidableEq

/-- Modelled from the spec: the initial state of `downloadWithConcurrency`
(whose implementation file is absent from the given tree):
`Math.min(concurrency, urls.length)` idle workers, cursor at zero, and
`new Array(urls.length).fill(null)` results. -/
def initPool (urls : List (List Char)) (concurrency : Nat) : PoolState :=
  { nextIndex := 0
    workers := List.replicate (min concurrency urls.length) .idle
    results := List.replicate urls.length none }

/-- Modelled from the spec: the interleaving semantics of the
`downloadWithConcurrency` worker pool.  `outcome u` is the caught result of
`downloadImage u` (`downloadOrNull`).  A step is: an idle worker atomically
claims the index at the cursor and advances the cursor (the synchronous
`nextIndex++` between awaits); a busy worker finishes its download and writes
its slot; an idle worker observes the cursor exhausted and exits.  Workers
suspend at downloads, so any interleaving of these steps can occur. -/
inductive PoolStep (outcome : List Char → Option ImageFile)
    (urls : List (List Char)) : PoolState → PoolState → Prop where
  | claim (s : PoolState) (w : Nat) (hw : s.workers.get? w = some .idle)
      (hn : s.nextIndex < urls.length) :
      PoolStep outcome urls s
        { nextIndex := s.nextIndex + 1
          workers := s.workers.set w (.busy s.nextIndex)
          results := s.results }
  | finish (s : PoolState) (w i : Nat) (hw : s.workers.get? w = some (.busy i)) :
      PoolStep outcome urls s
        { nextIndex := s.nextIndex
          workers := s.workers.set w .idle
          results := s.results.set i (outcome (urls.getD i [])) }
  | exit (s : PoolState) (w : Nat) (hw : s.workers.get? w = some .idle)
      (hn : urls.length ≤ s.nextIndex) :
      PoolStep outcome urls s
        { nextIndex := s.nextIndex
          workers := s.workers.set w .exited
          results := s.results }

/-- A pool state reachable from the initial state of
`downloadWithConcurrency urls concurrency`. -/
def PoolReachable (outcome : List Char → Option ImageFile)
    (urls : List (List Char)) (concurrency : Nat) (s : PoolState) : Prop :=
  Relation.ReflTransGen (PoolStep outcome urls) (initPool urls concurrency) s

/-- The number of downloads in flight: workers currently busy. -/
def activeDownloads (s : PoolState) : Nat :=
  (s.workers.filter (fun st => match st with | .busy _ => true | _ => false)).length

/-- Whether some worker is busy on index `i`. -/
def busyOn (s : PoolState) (i : Nat) : Prop :=
  ∃ w, s.workers.get? w = some (.busy i)

/-- A terminal pool state: every worker has exited
(`Promise.all` of the workers has resolved). -/
def allExited (s : PoolState) : Prop :=
  ∀ w st, s.workers.get? w = some st → st = WorkerStatus.exited

/-- The inductive invariant of the worker pool: the worker count is fixed at
`min concurrency urls.length`, the results array keeps the input length, the
cursor never passes the input length, every busy index was claimed from the
cursor, every claimed index is either being worked on or already written with
the outcome of its download, and a worker exits only after the cursor is
exhausted. -/
structure PoolInv (outcome : List Char → Option ImageFile) (urls : List (List Char))
    (concurrency : Nat) (s : PoolState) : Prop where
  workers_len : s.workers.length = min concurrency urls.length
  results_len : s.results.length = urls.length
  next_le : s.nextIndex ≤ urls.length
  busy_lt : ∀ w i, s.workers.get? w = some (.busy i) → i < s.nextIndex
  claimed : ∀ i, i < s.nextIndex →
    busyOn s i ∨ s.results.get? i = some (outcome (urls.getD i []))
  exited_done : ∀ w, s.workers.get? w = some .exited → urls.length ≤ s.nextIndex

/-- The compression method of a zip entry. -/
inductive CompressionMethod where
  | store
  | deflate
deriving DecidableEq

/-- One entry of the produced archive. -/
structure ZipEntry where
  name : List Char
  data : List Nat
  method : CompressionMethod
deriving DecidableEq

/-- Placeholder entry used as a `getD` default in statements. -/
def dummyEntry : ZipEntry := { name := [], data := [], method := .store }

/-- The value the resource-limited `createImageZip` resolves with: the archive
(modelled by its entries) and the count of images actually included. -/
structure ZipResult where
  entries : List ZipEntry
  imageCount : Nat
deriving DecidableEq

/-- The only batch-level failure of `createImageZip`: every download failed. -/
inductive ZipError where
  | allDownloadsFailed
deriving DecidableEq

/-- The options of the archive writer. -/
structure ArchiverOptions where
  format : List Char
  store : Bool
deriving DecidableEq

/-- Modelled from the spec: the resource-limited `createImageZip` opens
`archiver("zip", { store: true })` — a store-only (uncompressed) writer. -/
def createImageZipArchiverOptions : ArchiverOptions :=
  { format := jstr "zip", store := true }

/-- The compression method every appended entry receives under the given
writer options. -/
def entryMethod (o : ArchiverOptions) : CompressionMethod :=
  if o.store then .store else .deflate

/-- The append loop of the resource-limited `createImageZip`
(`for (const [index, image] of validImages.entries())`): each success is
appended under the sequence-numbered name `(index+1)_filename`, with the
compression method of the writer. -/
def archiveEntriesOf (images : List ImageFile) : List ZipEntry :=
  images.enum.map (fun p =>
    { name := natToChars (p.1 + 1) ++ jstr "_" ++ p.2.filename
      data := p.2.data
      method := entryMethod createImageZipArchiverOptions })

/-- Modelled from the spec: the archive-building phase of the resource-limited
`createImageZip` applied to the ordered results array: filter out the `null`
slots preserving order; fail with `allDownloadsFailed` when nothing remains;
otherwise append each success under its sequence-numbered name and report the
count of included images. -/
def buildArchive (results : List (Option ImageFile)) : Except ZipError ZipResult :=
  let validImages := results.filterMap id
  if validImages.length = 0 then .error .allDownloadsFailed
  else .ok { entries := archiveEntriesOf validImages, imageCount := validImages.length }

/-- Modelled from the spec: the resource-limited `createImageZip` composed
with the final results of its download phase, which `PoolStep` reachability
proves equal to `urls.map outcome` (index-aligned with the input). -/
def createImageZip (outcome : List Char → Option ImageFile)
    (urls : List (List Char)) : Except ZipError ZipResult :=
  buildArchive (urls.map outcome)

/-- The fields of the `downloadImageZip` mutation response the claims are
about (the base64 payload adds nothing to the model). -/
structure DownloadZipResponse where
  filename : List Char
  imageCount : Nat
deriving DecidableEq

/-- Modelled from the spec: the resource-limited `downloadImageZip` mutation:
build the archive and report `imageCount` as the actual successful count from
`createImageZip`, not the request length. -/
def downloadImageZip (outcome : List Char → Option ImageFile)
    (urls : List (List Char)) (triggerWord timestamp : List Char) :
    Except ZipError DownloadZipResponse :=
  match createImageZip outcome urls with
  | .error e => .error e
  | .ok z =>
    .ok
      { filename := jstr "lora-training-" ++ triggerWord ++ jstr "-" ++ timestamp
        imageCount := z.imageCount }

/-- A sample parse oracle: the WHATWG parse of `https://a.are.na/x.jpg`. -/
def sampleParse : List Char → Option URLRec := fun u =>
  if u = jstr "https://a.are.na/x.jpg" then
    some { protocol := jstr "https:", username := [], password := [],
           hostname := jstr "a.are.na", pathname := jstr "/x.jpg" }
  else none

/-- A sample DNS oracle: `a.are.na` resolves to a public address. -/
def sampleDns : List Char → Option (List Char) := fun h =>
  if h = jstr "a.are.na" then some (jstr "8.8.8.8") else none

/-- A sample response: a small advertised length but a 6,000,000-byte body,
served as two 3,000,000-byte chunks. -/
def bigResponse : HttpResponse :=
  { status := 200
    contentType := some (jstr "image/jpeg")
    contentLength := some 1000000
    bodyChunks := [List.replicate 3000000 7, List.replicate 3000000 7] }

/-- A fetch oracle serving `bigResponse` promptly for every URL. -/
def bigFetch : List Char → Option (Nat × HttpResponse) := fun _ => some (5, bigResponse)

/-- A fetch oracle whose fetch-and-read takes 30,001 ms. -/
def slowFetch : List Char → Option (Nat × HttpResponse) := fun _ => some (30001, bigResponse)

/-- A valid IPv4 segment denotes a number at most 255. -/
theorem isV4Seg_value {p : List Char} (h : isV4Seg p = true) :
    ∃ n, digitsToNat p = some n ∧ n ≤ 255 := by
  unfold isV4Seg at h
  cases hd : digitsToNat p with
  | none => rw [hd] at h; cases h
  | some n =>
    rw [hd] at h
    simp only [Bool.and_eq_true, decide_eq_true_eq] at h
    exact ⟨n, rfl, h.1⟩

/-- On any string Node's IPv4 grammar accepts, `isPrivateIP` is the numeric
membership of the 32-bit address value in the reserved ranges the claim enumerates. -/
theorem isPrivateIP_ipv4_iff (s : List Char) (h4 : isIPv4 s = true) :
    (isPrivateIP s = true ↔ claimedPrivateV4 (v4ValueOf s)) := by
  have h := h4
  unfold isIPv4 at h
  simp only [Bool.and_eq_true, decide_eq_true_eq, List.all_eq_true] at h
  obtain ⟨hlen, hall⟩ := h
  rcases hps : splitOnChar '.' s with _ | ⟨a, _ | ⟨b, _ | ⟨c, _ | ⟨d, _ | rest⟩⟩⟩⟩ <;>
      rw [hps] at hlen <;> simp_all
  obtain ⟨na, hda, hba⟩ := isV4Seg_value hall.1
  obtain ⟨nb, hdb, hbb⟩ := isV4Seg_value hall.2.1
  obtain ⟨nc, hdc, hbc⟩ := isV4Seg_value hall.2.2.1
  obtain ⟨nd, hdd, hbd⟩ := isV4Seg_value hall.2.2.2
  rw [isPrivateIP, if_pos h4]
  unfold v4ValueOf v4OctetsOf
  simp only [hps, List.map_cons, List.map_nil, hda, hdb, hdc, hdd, Option.getD_some,
    List.getD_cons_zero, List.getD_cons_succ]
  simp only [Bool.or_eq_true, Bool.and_eq_true, decide_eq_true_eq]
  unfold claimedPrivateV4
  omega

/-- C2 counterexample: the IPv4-mapped spelling of an address in the
172.16.0.0/12 private block is a well-formed IPv6 address, yet `isPrivateIP`
classifies it as public, because the IPv6 branch only matches the textual
prefixes `::ffff:127.`, `::ffff:10.`, `::ffff:192.168.` and `::ffff:169.254.`;
the claim asserts that the IPv4-mapped equivalents of all the enumerated
IPv4 ranges are classified private. -/
theorem isPrivateIP_mapped_gap : isIPv6 (jstr "::ffff:172.16.0.1") = true ∧
    isPrivateIP (jstr "::ffff:172.16.0.1") = false := by decide

/-- C2 (amended): for every string accepted by the IPv4 grammar,
`isPrivateIP` is true exactly when the numeric address value lies in the
enumerated reserved ranges (127/8, 0/8, 169.254/16, 10/8, 172.16/12,
192.168/16, 100.64/10, 198.18/15), and any string that is neither IPv4 nor
IPv6 is classified private (fail closed); for IPv6 the classification is
textual on the lowercased spelling, so the canonically spelled loopback,
unspecified, link-local, unique-local addresses and the IPv4-mapped
spellings of loopback, 10/8, 192.168/16 and 169.254/16 are classified
private, while the IPv4-mapped spellings of the remaining enumerated IPv4
ranges (172.16/12, 100.64/10, 198.18/15, 0/8) are classified public. -/
theorem isPrivateIP_classification :
    (∀ s, isIPv4 s = true → (isPrivateIP s = true ↔ claimedPrivateV4 (v4ValueOf s)))
    ∧ (∀ s, isIPv4 s = false → isIPv6 s = false → isPrivateIP s = true)
    ∧ (isPrivateIP (jstr "::1") = true ∧ isPrivateIP (jstr "::") = true ∧
        isPrivateIP (jstr "fe80::1") = true ∧ isPrivateIP (jstr "fc00::1") = true ∧
        isPrivateIP (jstr "fd00::1") = true ∧ isPrivateIP (jstr "::ffff:127.0.0.1") = true ∧
        isPrivateIP (jstr "::ffff:10.0.0.1") = true ∧
        isPrivateIP (jstr "::ffff:192.168.1.1") = true ∧
        isPrivateIP (jstr "::ffff:169.254.169.254") = true)
    ∧ (isPrivateIP (jstr "::ffff:100.64.0.1") = false ∧
        isPrivateIP (jstr "::ffff:198.18.0.1") = false ∧
        isPrivateIP (jstr "::ffff:0.0.0.1") = false ∧
        isPrivateIP (jstr "2001:4860:4860::8888") = false) := by
  refine ⟨isPrivateIP_ipv4_iff, ?_, by decide, by decide⟩
  intro s h1 h2
  rw [isPrivateIP, if_neg (by simp [h1]), if_neg (by simp [h2])]

/-- Witness for the C2 amended theorem: its universal clauses applied at the
loopback address and at a non-address string. -/
theorem isPrivateIP_classification_witness :
    isPrivateIP (jstr "127.0.0.1") = true ∧ isPrivateIP (jstr "zz") = true := by
  constructor
  · exact (isPrivateIP_classification.1 (jstr "127.0.0.1") (by decide)).2 (by decide)
  · exact isPrivateIP_classification.2.1 (jstr "zz") (by decide) (by decide)

/-- C10: `isPrivateIP` classifies IPv6 addresses by textual prefix matching
on the (lowercased) input spelling, not by parsed numeric value: the loopback
address written as `0:0:0:0:0:0:0:1` is well-formed IPv6 yet classified
public, while the canonical spelling `::1` of the same address is classified
private. -/
theorem isPrivateIP_ipv6_textual :
    isIPv6 (jstr "0:0:0:0:0:0:0:1") = true ∧
    isPrivateIP (jstr "0:0:0:0:0:0:0:1") = false ∧
    isPrivateIP (jstr "::1") = true := by decide

/-- The source's allowlist test, characterized: the case-folded hostname is
the CloudFront CDN host exactly, the bare apex domain of the suffix entry, or
any hostname ending in the dot-prefixed suffix. -/
theorem isAllowedHost_iff (h : List Char) :
    isAllowedHost h = true ↔
      (h = jstr "d2w9rnfcy7mm78.cloudfront.net" ∨ h = jstr "are.na" ∨
        hasSuffixCl (jstr ".are.na") h = true) := by
  have h1 : hasPrefixCl (jstr ".") (jstr "d2w9rnfcy7mm78.cloudfront.net") = false := by decide
  have h2 : hasPrefixCl (jstr ".") (jstr ".are.na") = true := by decide
  have h3 : (jstr ".are.na").drop 1 = jstr "are.na" := by decide
  simp [isAllowedHost, ALLOWED_IMAGE_DOMAINS, domainMatches, h1, h2, h3, or_assoc]

/-- Acceptance characterization of `validateImageUrl`: a URL passes exactly
when it parses, uses the https scheme, carries no credentials, its
case-folded hostname is allowlisted, DNS resolves it, and the resolved
address is not private. -/
theorem validateImageUrl_ok_iff (P : List Char → Option URLRec)
    (D : List Char → Option (List Char)) (url : List Char) :
    validateImageUrl P D url = .ok () ↔
      ∃ p a, P url = some p ∧ p.protocol = jstr "https:" ∧ p.username = [] ∧
        p.password = [] ∧ isAllowedHost (p.hostname.map jsCharToLower) = true ∧
        D (p.hostname.map jsCharToLower) = some a ∧ isPrivateIP a = false := by
  cases hp : P url with
  | none => simp [validateImageUrl, hp]
  | some p =>
    simp only [validateImageUrl, hp]
    by_cases h1 : p.protocol = jstr "https:"
    · rw [if_neg (by simp [h1])]
      by_cases h2u : p.username = []
      · by_cases h2w : p.password = []
        · rw [if_neg (by simp [h2u, h2w])]
          by_cases h3 : isAllowedHost (p.hostname.map jsCharToLower) = true
          · rw [if_neg (by simp [h3])]
            cases hd : D (p.hostname.map jsCharToLower) with
            | none => simp [h1, h2u, h2w, h3, hd]
            | some a =>
              by_cases h4 : isPrivateIP a = true
              · simp [h4, h1, h2u, h2w, h3, hd]
              · simp only [Bool.not_eq_true] at h4
                simp [h4, h1, h2u, h2w, h3, hd]
          · rw [if_pos (by simpa using h3)]
            simp only [Bool.not_eq_true] at h3
            simp [h1, h2u, h2w, h3]
        · rw [if_pos (by tauto)]
          simp [h2w]
      · rw [if_pos (by tauto)]
        simp [h2u]
    · rw [if_pos (by simpa using h1)]
      simp [h1]

/-- C7 counterexample: with a parse oracle behaving as the WHATWG parser does
on `https://are.na/a.jpg` and DNS resolving `are.na` to a public address, the
source accepts the URL, although the hostname `are.na` neither equals an
allowlist entry nor ends with the suffix entry `.are.na` — so check 4 as the
claim words it (`claimedHostCheck`) fails, refuting the claimed
"accepted if and only if all six checks pass". -/
theorem validateImageUrl_bare_apex_accepted :
    validateImageUrl
      (fun u => if u = jstr "https://are.na/a.jpg" then
          some { protocol := jstr "https:", username := [], password := [],
                 hostname := jstr "are.na", pathname := jstr "/a.jpg" }
        else none)
      (fun h => if h = jstr "are.na" then some (jstr "23.185.0.4") else none)
      (jstr "https://are.na/a.jpg") = .ok ()
    ∧ claimedHostCheck (jstr "are.na") = false := by decide

/-- C7 (amended): `validateImageUrl` runs its six checks in the fixed order
parse, scheme, credentials, allowlist, DNS, private-address, each
short-circuiting with its own distinct error, and accepts exactly when all
six pass — where the allowlist check accepts a case-folded hostname equal to
an exact entry, ending with a suffix-style entry, or equal to a suffix-style
entry with its leading dot removed (the bare apex domain). -/
theorem validateImageUrl_checks_in_order :
    (∀ h, isAllowedHost h = true ↔
        (h = jstr "d2w9rnfcy7mm78.cloudfront.net" ∨ h = jstr "are.na" ∨
          hasSuffixCl (jstr ".are.na") h = true))
    ∧ (∀ P D url, validateImageUrl P D url = .ok () ↔
        ∃ p a, P url = some p ∧ p.protocol = jstr "https:" ∧ p.username = [] ∧
          p.password = [] ∧ isAllowedHost (p.hostname.map jsCharToLower) = true ∧
          D (p.hostname.map jsCharToLower) = some a ∧ isPrivateIP a = false)
    ∧ (∀ P D url, P url = none →
        validateImageUrl P D url = .error .invalidUrl)
    ∧ (∀ P D url p, P url = some p → p.protocol ≠ jstr "https:" →
        validateImageUrl P D url = .error .schemeNotAllowed)
    ∧ (∀ P D url p, P url = some p → p.protocol = jstr "https:" →
        (p.username ≠ [] ∨ p.password ≠ []) →
        validateImageUrl P D url = .error .credentialsInUrl)
    ∧ (∀ P D url p, P url = some p → p.protocol = jstr "https:" →
        p.username = [] → p.password = [] →
        isAllowedHost (p.hostname.map jsCharToLower) = false →
        validateImageUrl P D url = .error .domainNotAllowed)
    ∧ (∀ P D url p, P url = some p → p.protocol = jstr "https:" →
        p.username = [] → p.password = [] →
        isAllowedHost (p.hostname.map jsCharToLower) = true →
        D (p.hostname.map jsCharToLower) = none →
        validateImageUrl P D url = .error .dnsResolutionFailed)
    ∧ (∀ P D url p a, P url = some p → p.protocol = jstr "https:" →
        p.username = [] → p.password = [] →
        isAllowedHost (p.hostname.map jsCharToLower) = true →
        D (p.hostname.map jsCharToLower) = some a → isPrivateIP a = true →
        validateImageUrl P D url = .error .privateIpRejected) := by
  refine ⟨isAllowedHost_iff, validateImageUrl_ok_iff, ?_, ?_, ?_, ?_, ?_, ?_⟩
  · intro P D url hp
    simp [validateImageUrl, hp]
  · intro P D url p hp h1
    simp only [validateImageUrl, hp]
    rw [if_pos h1]
  · intro P D url p hp h1 h2
    simp only [validateImageUrl, hp]
    rw [if_neg (by simp [h1]), if_pos h2]
  · intro P D url p hp h1 h2u h2w h3
    simp only [validateImageUrl, hp]
    rw [if_neg (by simp [h1]), if_neg (by simp [h2u, h2w]), if_pos (by simp [h3])]
  · intro P D url p hp h1 h2u h2w h3 hd
    simp only [validateImageUrl, hp]
    rw [if_neg (by simp [h1]), if_neg (by simp [h2u, h2w]), if_neg (by simp [h3]), hd]
  · intro P D url p a hp h1 h2u h2w h3 hd h4
    simp only [validateImageUrl, hp]
    rw [if_neg (by simp [h1]), if_neg (by simp [h2u, h2w]), if_neg (by simp [h3]), hd]
    simp [h4]

/-- Witness for the C7 amended theorem: the parse-failure clause applied to an
oracle rejecting everything, and the allowlist clause applied to an are.na
subdomain. -/
theorem validateImageUrl_checks_in_order_witness :
    validateImageUrl (fun _ => none) (fun _ => none) (jstr "x") = .error .invalidUrl
    ∧ isAllowedHost (jstr "images.are.na") = true := by
  constructor
  · exact validateImageUrl_checks_in_order.2.2.1 (fun _ => none) (fun _ => none) (jstr "x") rfl
  · exact (validateImageUrl_checks_in_order.1 (jstr "images.are.na")).2
      (Or.inr (Or.inr (by decide)))

/-- Unfolding lemma: total length of no chunks. -/
theorem sumChunkLens_nil : sumChunkLens [] = 0 := rfl

/-- Unfolding lemma: total length of a chunk sequence. -/
theorem sumChunkLens_cons (c : List Nat) (cs : List (List Nat)) :
    sumChunkLens (c :: cs) = c.length + sumChunkLens cs := by
  simp [sumChunkLens]

/-- The streaming loop fails at the first chunk that pushes the running count
over the ceiling, reporting exactly that running count, regardless of what
follows (the read is cancelled). -/
theorem readStream_crossing (pre : List (List Nat)) (chunk : List Nat)
    (rest : List (List Nat)) (acc : Nat)
    (h1 : acc + sumChunkLens pre ≤ MAX_IMAGE_SIZE)
    (h2 : MAX_IMAGE_SIZE < acc + sumChunkLens pre + chunk.length) :
    readStream (pre ++ chunk :: rest) acc =
      .error (.sizeExceededStreamed (acc + sumChunkLens pre + chunk.length)) := by
  induction pre generalizing acc with
  | nil =>
    rw [sumChunkLens_nil] at h2
    simp only [List.nil_append, readStream]
    rw [if_pos (by omega)]
    simp [sumChunkLens_nil]
  | cons c cs ih =>
    rw [sumChunkLens_cons] at h1 h2
    simp only [List.cons_append, readStream, List.append_eq]
    rw [if_neg (by omega)]
    rw [ih (acc + c.length) (by omega) (by omega)]
    simp only [sumChunkLens_cons]
    congr 2
    omega

/-- Any error of the streaming loop is a streamed-size rejection whose
reported count exceeds the ceiling and is at most the running total. -/
theorem readStream_error_form {chunks : List (List Nat)} {acc : Nat}
    {e : DownloadError} (h : readStream chunks acc = .error e) :
    ∃ n, e = .sizeExceededStreamed n ∧ MAX_IMAGE_SIZE < n ∧
      n ≤ acc + sumChunkLens chunks := by
  induction chunks generalizing acc with
  | nil => exact absurd h (by simp [readStream])
  | cons c cs ih =>
    rw [readStream] at h
    by_cases hc : MAX_IMAGE_SIZE < acc + c.length
    · rw [if_pos hc] at h
      injection h with h
      exact ⟨acc + c.length, h.symm, hc, by rw [sumChunkLens_cons]; omega⟩
    · rw [if_neg hc] at h
      cases hr : readStream cs (acc + c.length) with
      | error e' =>
        rw [hr] at h
        injection h with h
        subst h
        obtain ⟨n, hn, hlt, hle⟩ := ih hr
        exact ⟨n, hn, hlt, by rw [sumChunkLens_cons]; omega⟩
      | ok cs' => rw [hr] at h; cases h

/-- When the body total exceeds the ceiling, the streaming loop fails with a
streamed-size rejection bounded by the total. -/
theorem readStream_exceeds (chunks : List (List Nat)) (acc : Nat)
    (hacc : acc ≤ MAX_IMAGE_SIZE)
    (h : MAX_IMAGE_SIZE < acc + sumChunkLens chunks) :
    ∃ n, readStream chunks acc = .error (.sizeExceededStreamed n) ∧
      MAX_IMAGE_SIZE < n ∧ n ≤ acc + sumChunkLens chunks := by
  induction chunks generalizing acc with
  | nil => rw [sumChunkLens_nil] at h; omega
  | cons c cs ih =>
    rw [sumChunkLens_cons] at h
    rw [readStream]
    by_cases hc : MAX_IMAGE_SIZE < acc + c.length
    · rw [if_pos hc]
      exact ⟨acc + c.length, rfl, hc, by rw [sumChunkLens_cons]; omega⟩
    · rw [if_neg hc]
      push_neg at hc
      obtain ⟨n, hn, hlt, hle⟩ := ih (acc + c.length) hc (by omega)
      rw [hn]
      exact ⟨n, rfl, hlt, by rw [sumChunkLens_cons]; omega⟩

/-- C1: the downloader enforces the 5,242,880-byte ceiling by streaming — it
keeps a running byte count over the body chunks, fails with the streamed
count the instant the count exceeds the ceiling (independently of any chunks
after the crossing, i.e. the read is cancelled), every streaming rejection
reports a count that exceeds the ceiling, and a response whose advertised
content-length is under the ceiling (or absent) but whose actual body
exceeds it is still rejected with a streamed-size error — the header is
never the authoritative check. -/
theorem downloadImage_streaming_size_limit :
    MAX_IMAGE_SIZE = 5242880
    ∧ (∀ pre chunk rest, sumChunkLens pre ≤ MAX_IMAGE_SIZE →
        MAX_IMAGE_SIZE < sumChunkLens pre + chunk.length →
        readStream (pre ++ chunk :: rest) 0 =
          .error (.sizeExceededStreamed (sumChunkLens pre + chunk.length)))
    ∧ (∀ chunks acc e, readStream chunks acc = .error e →
        ∃ n, e = .sizeExceededStreamed n ∧ MAX_IMAGE_SIZE < n ∧
          n ≤ acc + sumChunkLens chunks)
    ∧ (∀ P D F now url t r ct, validateImageUrl P D url = .ok () →
        F url = some (t, r) → t ≤ DOWNLOAD_TIMEOUT_MS →
        200 ≤ r.status → r.status < 300 →
        r.contentType = some ct → hasPrefixCl (jstr "image/") ct = true →
        r.contentLength.getD 0 ≤ MAX_IMAGE_SIZE →
        MAX_IMAGE_SIZE < sumChunkLens r.bodyChunks →
        ∃ n, downloadImage P D F now url = .error (.sizeExceededStreamed n) ∧
          MAX_IMAGE_SIZE < n ∧ n ≤ sumChunkLens r.bodyChunks) := by
  refine ⟨rfl, ?_, ?_, ?_⟩
  · intro pre chunk rest h1 h2
    have h := readStream_crossing pre chunk rest 0 (by omega) (by omega)
    simpa using h
  · intro chunks acc e h
    exact readStream_error_form h
  · intro P D F now url t r ct hv hf ht hs1 hs2 hct hpre hcl hbig
    obtain ⟨n, hn, hlt, hle⟩ := readStream_exceeds r.bodyChunks 0 (by omega) (by omega)
    refine ⟨n, ?_, hlt, by omega⟩
    simp only [downloadImage, hv, hf]
    rw [if_neg (by omega), if_neg (not_not_intro ⟨hs1, hs2⟩), hct]
    dsimp only
    rw [if_neg (not_not_intro hpre), if_neg (by omega), hn]

/-- Witness for the C1 theorem: a response advertising 1,000,000 bytes but
serving 6,000,000 is rejected with a streamed-size error. -/
theorem downloadImage_streaming_size_limit_witness :
    ∃ n, downloadImage sampleParse sampleDns bigFetch 0 (jstr "https://a.are.na/x.jpg") =
        .error (.sizeExceededStreamed n) ∧
      MAX_IMAGE_SIZE < n ∧ n ≤ sumChunkLens bigResponse.bodyChunks :=
  downloadImage_streaming_size_limit.2.2.2 sampleParse sampleDns bigFetch 0
    (jstr "https://a.are.na/x.jpg") 5 bigResponse (jstr "image/jpeg")
    (by decide) rfl (by decide) (by decide) (by decide) rfl (by decide) (by decide)
    (by norm_num [bigResponse, sumChunkLens, MAX_IMAGE_SIZE])

/-- C4: every fetch of `downloadImage` is issued under the default 30,000 ms
wall-clock deadline (`AbortSignal.timeout(DOWNLOAD_TIMEOUT_MS)` in the fetch
init, covering the whole fetch-and-read); a fetch whose total elapsed time
exceeds the deadline fails with `timeout`; and, like every per-item failure
kind, it is non-fatal to the batch: a failed item merely becomes an absent
slot, and the archive is still produced whenever any item succeeds. -/
theorem downloadImage_timeout_deadline :
    DOWNLOAD_TIMEOUT_MS = 30000
    ∧ downloadImageFetchInit =
        { redirect := jstr "error", timeoutMs := some DOWNLOAD_TIMEOUT_MS }
    ∧ (∀ P D F now url t r, validateImageUrl P D url = .ok () →
        F url = some (t, r) → DOWNLOAD_TIMEOUT_MS < t →
        downloadImage P D F now url = .error .timeout)
    ∧ (∀ P D F now url e, downloadImage P D F now url = .error e →
        downloadOrNull P D F now url = none)
    ∧ (∀ outcome urls, (∃ u, u ∈ urls ∧ outcome u ≠ none) →
        ∃ z, createImageZip outcome urls = .ok z) := by
  refine ⟨rfl, rfl, ?_, ?_, ?_⟩
  · intro P D F now url t r hv hf ht
    simp only [downloadImage, hv, hf]
    rw [if_pos ht]
  · intro P D F now url e h
    simp [downloadOrNull, h, Except.toOption]
  · intro outcome urls ⟨u, hu, hne⟩
    simp only [createImageZip, buildArchive]
    rw [if_neg ?_]
    · exact ⟨_, rfl⟩
    · intro h0
      rw [List.length_eq_zero] at h0
      rw [List.filterMap_eq_nil_iff] at h0
      exact hne (h0 (outcome u) (List.mem_map_of_mem outcome hu))

/-- Witness for the C4 theorem: a fetch taking 30,001 ms fails with
`timeout`, and a batch with one success still produces an archive. -/
theorem downloadImage_timeout_deadline_witness :
    downloadImage sampleParse sampleDns slowFetch 0 (jstr "https://a.are.na/x.jpg") =
      .error .timeout
    ∧ ∃ z, createImageZip
        (fun u => if u = jstr "ok" then some dummyImage else none)
        [jstr "bad", jstr "ok"] = .ok z := by
  constructor
  · exact downloadImage_timeout_deadline.2.2.1 sampleParse sampleDns slowFetch 0
      (jstr "https://a.are.na/x.jpg") 30001 bigResponse (by decide) rfl (by decide)
  · exact downloadImage_timeout_deadline.2.2.2.2
      (fun u => if u = jstr "ok" then some dummyImage else none)
      [jstr "bad", jstr "ok"] ⟨jstr "ok", by decide, by decide⟩

/-- An index that reads `some` from a list is within bounds. -/
theorem get?_some_lt {α : Type} {l : List α} {w : Nat} {a : α}
    (h : l.get? w = some a) : w < l.length := by
  by_contra hc
  push_neg at hc
  rw [List.get?_eq_getElem?, List.getElem?_len_le hc] at h
  cases h

/-- Reading any position of a replicated list yields the replicated value. -/
theorem replicate_get?_eq {α : Type} {n w : Nat} {a st : α}
    (h : (List.replicate n a).get? w = some st) : st = a := by
  rw [List.get?_eq_getElem?, List.getElem?_replicate] at h
  split at h
  · injection h with h
    exact h.symm
  · cases h

/-- The initial pool state satisfies the invariant. -/
theorem poolInv_init (outcome : List Char → Option ImageFile)
    (urls : List (List Char)) (concurrency : Nat) :
    PoolInv outcome urls concurrency (initPool urls concurrency) := by
  refine ⟨by simp [initPool], by simp [initPool], Nat.zero_le _, ?_, ?_, ?_⟩
  · intro w i h
    simp only [initPool] at h
    exact WorkerStatus.noConfusion (replicate_get?_eq h)
  · intro i hi
    simp only [initPool] at hi
    omega
  · intro w h
    simp only [initPool] at h
    exact WorkerStatus.noConfusion (replicate_get?_eq h)

/-- Every pool step preserves the invariant. -/
theorem poolInv_step {outcome : List Char → Option ImageFile}
    {urls : List (List Char)} {concurrency : Nat} {s s' : PoolState}
    (inv : PoolInv outcome urls concurrency s) (h : PoolStep outcome urls s s') :
    PoolInv outcome urls concurrency s' := by
  cases h with
  | claim w hw hn =>
    refine ⟨?_, inv.results_len, ?_, ?_, ?_, ?_⟩
    · dsimp only
      rw [List.length_set]
      exact inv.workers_len
    · dsimp only
      omega
    · intro w' i h'
      dsimp only at h' ⊢
      by_cases hww : w = w'
      · subst hww
        rw [List.get?_eq_getElem?, List.getElem?_set_self (get?_some_lt hw)] at h'
        injection h' with h'
        injection h' with h'
        omega
      · rw [List.get?_eq_getElem?, List.getElem?_set_ne hww, ← List.get?_eq_getElem?] at h'
        have := inv.busy_lt w' i h'
        omega
    · intro i hi
      dsimp only at hi
      unfold busyOn
      dsimp only
      by_cases hi' : i < s.nextIndex
      · rcases inv.claimed i hi' with ⟨w₁, hw₁⟩ | hres
        · left
          refine ⟨w₁, ?_⟩
          have hne : w ≠ w₁ := by
            intro he
            rw [he, hw₁] at hw
            injection hw with hw
            exact WorkerStatus.noConfusion hw
          rw [List.get?_eq_getElem?, List.getElem?_set_ne hne, ← List.get?_eq_getElem?]
          exact hw₁
        · right
          exact hres
      · left
        have hi0 : i = s.nextIndex := by omega
        subst hi0
        refine ⟨w, ?_⟩
        rw [List.get?_eq_getElem?, List.getElem?_set_self (get?_some_lt hw)]
    · intro w' h'
      dsimp only at h' ⊢
      by_cases hww : w = w'
      · subst hww
        rw [List.get?_eq_getElem?, List.getElem?_set_self (get?_some_lt hw)] at h'
        injection h' with h'
        exact WorkerStatus.noConfusion h'
      · rw [List.get?_eq_getElem?, List.getElem?_set_ne hww, ← List.get?_eq_getElem?] at h'
        have := inv.exited_done w' h'
        omega
  | finish w i hw =>
    have hi_lt : i < s.nextIndex := inv.busy_lt w i hw
    have hi_len : i < urls.length := by
      have := inv.next_le
      omega
    refine ⟨?_, ?_, inv.next_le, ?_, ?_, ?_⟩
    · dsimp only
      rw [List.length_set]
      exact inv.workers_len
    · dsimp only
      rw [List.length_set]
      exact inv.results_len
    · intro w' i' h'
      dsimp only at h' ⊢
      by_cases hww : w = w'
      · subst hww
        rw [List.get?_eq_getElem?, List.getElem?_set_self (get?_some_lt hw)] at h'
        injection h' with h'
        exact WorkerStatus.noConfusion h'
      · rw [List.get?_eq_getElem?, List.getElem?_set_ne hww, ← List.get?_eq_getElem?] at h'
        exact inv.busy_lt w' i' h'
    · intro j hj
      dsimp only at hj
      unfold busyOn
      dsimp only
      by_cases hji : j = i
      · subst hji
        right
        rw [List.get?_eq_getElem?,
          List.getElem?_set_self (by rw [inv.results_len]; exact hi_len)]
      · rcases inv.claimed j hj with ⟨w₁, hw₁⟩ | hres
        · left
          refine ⟨w₁, ?_⟩
          have hne : w ≠ w₁ := by
            intro he
            rw [he, hw₁] at hw
            injection hw with hw
            injection hw with hw
            exact hji hw
          rw [List.get?_eq_getElem?, List.getElem?_set_ne hne, ← List.get?_eq_getElem?]
          exact hw₁
        · right
          have hne : i ≠ j := fun he => hji he.symm
          rw [List.get?_eq_getElem?, List.getElem?_set_ne hne, ← List.get?_eq_getElem?]
          exact hres
    · intro w' h'
      dsimp only at h' ⊢
      by_cases hww : w = w'
      · subst hww
        rw [List.get?_eq_getElem?, List.getElem?_set_self (get?_some_lt hw)] at h'
        injection h' with h'
        exact WorkerStatus.noConfusion h'
      · rw [List.get?_eq_getElem?, List.getElem?_set_ne hww, ← List.get?_eq_getElem?] at h'
        exact inv.exited_done w' h'
  | exit w hw hn =>
    refine ⟨?_, inv.results_len, inv.next_le, ?_, ?_, ?_⟩
    · dsimp only
      rw [List.length_set]
      exact inv.workers_len
    · intro w' i' h'
      dsimp only at h' ⊢
      by_cases hww : w = w'
      · subst hww
        rw [List.get?_eq_getElem?, List.getElem?_set_self (get?_some_lt hw)] at h'
        injection h' with h'
        exact WorkerStatus.noConfusion h'
      · rw [List.get?_eq_getElem?, List.getElem?_set_ne hww, ← List.get?_eq_getElem?] at h'
        exact inv.busy_lt w' i' h'
    · intro j hj
      dsimp only at hj
      unfold busyOn
      dsimp only
      rcases inv.claimed j hj with ⟨w₁, hw₁⟩ | hres
      · left
        refine ⟨w₁, ?_⟩
        have hne : w ≠ w₁ := by
          intro he
          rw [he, hw₁] at hw
          injection hw with hw
          exact WorkerStatus.noConfusion hw
        rw [List.get?_eq_getElem?, List.getElem?_set_ne hne, ← List.get?_eq_getElem?]
        exact hw₁
      · right
        exact hres
    · intro w' h'
      dsimp only at h' ⊢
      by_cases hww : w = w'
      · exact hn
      · rw [List.get?_eq_getElem?, List.getElem?_set_ne hww, ← List.get?_eq_getElem?] at h'
        exact inv.exited_done w' h'

/-- The invariant holds in every reachable pool state. -/
theorem poolInv_reachable {outcome : List Char → Option ImageFile}
    {urls : List (List Char)} {concurrency : Nat} {s : PoolState}
    (h : PoolReachable outcome urls concurrency s) :
    PoolInv outcome urls concurrency s := by
  induction h with
  | refl => exact poolInv_init outcome urls concurrency
  | tail _ hstep ih => exact poolInv_step ih hstep

/-- C3: the download phase of `createImageZip` is a fixed-size worker pool
(`downloadWithConcurrency`, invoked with `DOWNLOAD_CONCURRENCY = 5`): it
spawns `min(concurrency, urls.length)` workers that pull the next unclaimed
index from the shared cursor, so in every reachable state of any
interleaving the number of downloads in flight is at most
`min(concurrency, urls.length)`, and in particular never more than the
concurrency setting. -/
theorem downloadWithConcurrency_bounded :
    DOWNLOAD_CONCURRENCY = 5
    ∧ (∀ outcome urls concurrency s, PoolReachable outcome urls concurrency s →
        activeDownloads s ≤ min concurrency urls.length ∧
        activeDownloads s ≤ concurrency) := by
  refine ⟨rfl, ?_⟩
  intro outcome urls concurrency s h
  have inv := poolInv_reachable h
  have h1 : activeDownloads s ≤ s.workers.length := List.length_filter_le _ _
  rw [inv.workers_len] at h1
  exact ⟨h1, le_trans h1 (Nat.min_le_left _ _)⟩

/-- Witness for the C3 theorem: the bound applied to the initial state of a
one-URL batch at the default concurrency. -/
theorem downloadWithConcurrency_bounded_witness :
    activeDownloads (initPool [jstr "u"] DOWNLOAD_CONCURRENCY) ≤ DOWNLOAD_CONCURRENCY :=
  (downloadWithConcurrency_bounded.2 (fun _ => none) [jstr "u"] DOWNLOAD_CONCURRENCY
    (initPool [jstr "u"] DOWNLOAD_CONCURRENCY) Relation.ReflTransGen.refl).2

/-- C8: whatever interleaving the pool takes, once every worker has exited
(`Promise.all` resolved), the results array has exactly the input length and
slot `i` holds exactly the caught outcome of downloading `urls[i]` — a
failure gives `none` at that slot only, and the value of one slot never depends
on the outcomes of the other slots or on completion order. -/
theorem downloadWithConcurrency_results_aligned :
    ∀ outcome urls concurrency s, 1 ≤ concurrency →
      PoolReachable outcome urls concurrency s → allExited s →
      s.results.length = urls.length ∧
      ∀ i, i < urls.length → s.results.get? i = some (outcome (urls.getD i [])) := by
  intro outcome urls concurrency s hc h hex
  have inv := poolInv_reachable h
  refine ⟨inv.results_len, ?_⟩
  intro i hi
  have hnext : urls.length ≤ s.nextIndex := by
    have hw0 : ¬ s.workers.get? 0 = none := by
      rw [List.get?_eq_none, inv.workers_len]
      omega
    cases hst : s.workers.get? 0 with
    | none => exact absurd hst hw0
    | some st =>
      have he := hex 0 st hst
      subst he
      exact inv.exited_done 0 hst
  rcases inv.claimed i (by omega) with ⟨w, hw⟩ | hres
  · exact absurd (hex w _ hw) (by intro he; exact WorkerStatus.noConfusion he)
  · exact hres

/-- Witness for the C8 theorem: an explicit claim-finish-exit run of a
one-URL batch with one worker ends with the outcome of the download at slot 0. -/
theorem downloadWithConcurrency_results_aligned_witness :
    (⟨1, [WorkerStatus.exited], [some dummyImage]⟩ : PoolState).results.get? 0 =
      some (some dummyImage) := by
  have h1 : PoolReachable (fun _ => some dummyImage) [jstr "u"] 1
      ⟨1, [WorkerStatus.busy 0], [none]⟩ :=
    Relation.ReflTransGen.tail Relation.ReflTransGen.refl
      (PoolStep.claim (initPool [jstr "u"] 1) 0 rfl (by decide))
  have h2 : PoolReachable (fun _ => some dummyImage) [jstr "u"] 1
      ⟨1, [WorkerStatus.idle], [some dummyImage]⟩ :=
    Relation.ReflTransGen.tail h1
      (PoolStep.finish ⟨1, [WorkerStatus.busy 0], [none]⟩ 0 0 rfl)
  have h3 : PoolReachable (fun _ => some dummyImage) [jstr "u"] 1
      ⟨1, [WorkerStatus.exited], [some dummyImage]⟩ :=
    Relation.ReflTransGen.tail h2
      (PoolStep.exit ⟨1, [WorkerStatus.idle], [some dummyImage]⟩ 0 rfl (by decide))
  have hex : allExited (⟨1, [WorkerStatus.exited], [some dummyImage]⟩ : PoolState) := by
    intro w st hst
    cases w with
    | zero =>
      injection hst with hst
      exact hst.symm
    | succ w => cases hst
  exact (downloadWithConcurrency_results_aligned (fun _ => some dummyImage)
    [jstr "u"] 1 ⟨1, [WorkerStatus.exited], [some dummyImage]⟩ (by omega) h3 hex).2 0
    (by decide)

/-- A failed `Except` is exactly one whose `toOption` is `none`. -/
theorem except_toOption_none {ε α : Type} (x : Except ε α) :
    x.toOption = none ↔ ∃ e, x = .error e := by
  cases x with
  | error e => simp [Except.toOption]
  | ok a => simp [Except.toOption]

/-- The archive build fails exactly when every slot holds `none`. -/
theorem createImageZip_allFailed_iff (outcome : List Char → Option ImageFile)
    (urls : List (List Char)) :
    createImageZip outcome urls = .error .allDownloadsFailed ↔
      ∀ u ∈ urls, outcome u = none := by
  simp only [createImageZip, buildArchive]
  by_cases h0 : ((urls.map outcome).filterMap id).length = 0
  · rw [if_pos h0]
    constructor
    · intro _ u hu
      rw [List.length_eq_zero, List.filterMap_eq_nil_iff] at h0
      exact h0 (outcome u) (List.mem_map_of_mem outcome hu)
    · intro _
      rfl
  · rw [if_neg h0]
    constructor
    · intro h
      cases h
    · intro hall
      exfalso
      apply h0
      rw [List.length_eq_zero, List.filterMap_eq_nil_iff]
      intro a ha
      obtain ⟨u, hu, he⟩ := List.mem_map.mp ha
      rw [← he]
      exact hall u hu

/-- The name of the `j`-th entry the archiver receives. -/
theorem buildArchive_entry_name (images : List ImageFile) (j : Nat)
    (hj : j < images.length) :
    ((archiveEntriesOf images).getD j dummyEntry).name =
      natToChars (j + 1) ++ jstr "_" ++ (images.getD j dummyImage).filename := by
  rw [archiveEntriesOf, List.getD_eq_getElem?_getD, List.getElem?_map, List.getElem?_enum,
    List.getElem?_eq_getElem hj, List.getD_eq_getElem?_getD,
    List.getElem?_eq_getElem hj]
  simp

/-- C5: over any batch where `M ≥ 1` downloads succeed, `createImageZip`
produces an archive with exactly `M` entries whose names are `1_...` through
`M_...` over the successes in original input order, reports `imageCount = M`,
and the `downloadImageZip` mutation passes that actual count (not the request
length) to the caller. -/
theorem createImageZip_numbered_entries :
    ∀ outcome urls, 1 ≤ ((urls.map outcome).filterMap id).length →
      ∃ z, createImageZip outcome urls = .ok z ∧
        z.entries.length = ((urls.map outcome).filterMap id).length ∧
        z.imageCount = ((urls.map outcome).filterMap id).length ∧
        (∀ j, j < z.entries.length →
          (z.entries.getD j dummyEntry).name =
            natToChars (j + 1) ++ jstr "_" ++
              (((urls.map outcome).filterMap id).getD j dummyImage).filename) ∧
        (∀ trigger ts, ∃ resp,
          downloadImageZip outcome urls trigger ts = .ok resp ∧
          resp.imageCount = ((urls.map outcome).filterMap id).length) := by
  intro outcome urls h1
  have h0 : ¬ ((urls.map outcome).filterMap id).length = 0 := by omega
  refine ⟨⟨archiveEntriesOf ((urls.map outcome).filterMap id), ((urls.map outcome).filterMap id).length⟩, ?_, ?_, ?_, ?_, ?_⟩
  · simp only [createImageZip, buildArchive]
    rw [if_neg h0]
  · dsimp only
    rw [archiveEntriesOf, List.length_map, List.enum_length]
  · rfl
  · intro j hj
    dsimp only at hj ⊢
    rw [archiveEntriesOf, List.length_map, List.enum_length] at hj
    exact buildArchive_entry_name _ j hj
  · intro trigger ts
    refine ⟨⟨jstr "lora-training-" ++ trigger ++ jstr "-" ++ ts, ((urls.map outcome).filterMap id).length⟩, ?_, rfl⟩
    simp only [downloadImageZip, createImageZip, buildArchive]
    rw [if_neg h0]

/-- Witness for the C5 theorem: a two-URL batch with one success yields an
archive reporting `imageCount = 1`. -/
theorem createImageZip_numbered_entries_witness :
    ∃ z, createImageZip (fun u => if u = jstr "ok" then some dummyImage else none)
        [jstr "ok", jstr "bad"] = .ok z ∧ z.imageCount = 1 := by
  obtain ⟨z, hz, hlen, hcount, hname, hresp⟩ := createImageZip_numbered_entries
    (fun u => if u = jstr "ok" then some dummyImage else none)
    [jstr "ok", jstr "bad"] (by decide)
  refine ⟨z, hz, ?_⟩
  rw [hcount]
  decide

/-- C6: the archive writer is opened store-only (`archiver("zip",
{ store: true })`) and every entry of every successfully produced archive
carries the store (uncompressed) method — no recompression is applied. -/
theorem createImageZip_store_only :
    createImageZipArchiverOptions.store = true
    ∧ entryMethod createImageZipArchiverOptions = .store
    ∧ (∀ outcome urls z, createImageZip outcome urls = .ok z →
        ∀ e, e ∈ z.entries → e.method = .store) := by
  refine ⟨rfl, rfl, ?_⟩
  intro outcome urls z hz e he
  simp only [createImageZip, buildArchive] at hz
  by_cases h0 : ((urls.map outcome).filterMap id).length = 0
  · rw [if_pos h0] at hz
    cases hz
  · rw [if_neg h0] at hz
    injection hz with hz
    subst hz
    dsimp only [archiveEntriesOf] at he
    obtain ⟨p, hp, he'⟩ := List.mem_map.mp he
    rw [← he']
    rfl

/-- Witness for the C6 theorem: the single entry of a concrete one-image
archive is stored, not deflated. -/
theorem createImageZip_store_only_witness :
    ∃ z, createImageZip (fun _ => some dummyImage) [jstr "u"] = .ok z ∧
      ∀ e, e ∈ z.entries → e.method = .store := by
  refine ⟨_, rfl, ?_⟩
  intro e he
  exact createImageZip_store_only.2.2 (fun _ => some dummyImage) [jstr "u"] _ rfl e he

/-- C9: `createImageZip` raises an error if and only if every download
failed, that error is the single batch-level kind `allDownloadsFailed` (so no
archive is produced then and only then), and with the per-worker catch in
place (`downloadOrNull`) this happens exactly when `downloadImage` failed on
every input — every per-item error of any kind is converted to an absent
slot and never escapes the batch boundary. -/
theorem createImageZip_error_boundary :
    ∀ outcome urls,
      (createImageZip outcome urls = .error .allDownloadsFailed ↔
        ∀ u ∈ urls, outcome u = none)
      ∧ (∀ e, createImageZip outcome urls = .error e → e = .allDownloadsFailed)
      ∧ (∀ P D F now,
          (createImageZip (downloadOrNull P D F now) urls = .error .allDownloadsFailed ↔
            ∀ u ∈ urls, ∃ er, downloadImage P D F now u = .error er)) := by
  intro outcome urls
  refine ⟨createImageZip_allFailed_iff outcome urls, ?_, ?_⟩
  · intro e _
    cases e
    rfl
  · intro P D F now
    rw [createImageZip_allFailed_iff]
    constructor
    · intro h u hu
      rw [← except_toOption_none]
      exact h u hu
    · intro h u hu
      rw [downloadOrNull, except_toOption_none]
      exact h u hu

/-- Witness for the C9 theorem: a batch whose only two downloads both fail
raises `allDownloadsFailed`, and a batch with a success does not. -/
theorem createImageZip_error_boundary_witness :
    createImageZip (fun _ => none) [jstr "a", jstr "b"] = .error .allDownloadsFailed ∧
    ¬ createImageZip (fun _ => some dummyImage) [jstr "a"] = .error .allDownloadsFailed := by
  constructor
  · exact (createImageZip_error_boundary (fun _ => none) [jstr "a", jstr "b"]).1.mpr
      (fun u _ => rfl)
  · intro h
    have := (createImageZip_error_boundary (fun _ => some dummyImage) [jstr "a"]).1.mp h
      (jstr "a") (by decide)
    cases this
